import Mathlib

/-!
Shallow embedding of the core of `bul`, an interactive Kubernetes log viewer.

The embedding follows the Rust sources:
* `src/container.rs` — source matching (`ContainerStateMatcher`,
  `ContainerLogStreamer::get_pod_and_containers`), worker spawning
  (`launch_log_streams`), the per-worker poll loop, line sanitization and
  deterministic color assignment;
* `src/bul.rs` — the live aggregation loop (`log_keeping` task) with its
  bounded history buffer;
* `src/dig.rs` — the search-mode filter (`Digger::evaluate`).

Strings stand for the text content of `StyledGraphemes` (styling is
presentation only); Kubernetes API values are embedded as plain records
mirroring the `Option` structure of the Rust types; the asynchronous loops
are embedded as pure functions over explicit schedules (the value a shared
flag or fallible call would yield at each observation point).
-/

namespace Bul

/-- One log record, as built by a stream worker (`src/container.rs`):
`meta` is the colored source key, `body` the sanitized line text. -/
structure ContainerLog where
  meta : String
  body : String
  deriving DecidableEq, Repr

/-! ### Sanitization (`src/container.rs`, worker task)

The worker computes
`strip_ansi_escapes::strip_str(line.replace(['\n', '\t'], " "))`.
`String::replace(['\n','\t'], " ")` is a character-for-character map.
`strip_ansi_escapes::strip_str` is a dependency: it feeds the bytes to a
terminal-sequence parser and keeps only printed characters (and bare
line feeds); escape sequences (ESC-introduced, in particular CSI
sequences terminated by a byte in `0x40..=0x7e`) and the remaining
control characters are dropped.  `stripEscGo` models that parser as a
three-state machine over characters. -/

/-- The ESC character that introduces terminal escape sequences. -/
def escChar : Char := Char.ofNat 27

/-- `line.replace(['\n', '\t'], " ")` on the character list. -/
def replaceChars (l : List Char) : List Char :=
  l.map (fun c => if c = '\n' ∨ c = '\t' then ' ' else c)

/-- Parser state of the modelled escape stripper: ordinary text,
just saw ESC, or inside a CSI sequence. -/
inductive StripMode where
  | text
  | esc
  | csi
  deriving DecidableEq

/-- Model of the `strip_ansi_escapes` parser: keep printable characters
(and a bare line feed), drop other control characters, and consume
escape sequences (after ESC, `[` opens a CSI sequence which ends at the
first byte in `0x40..=0x7e`; any other single character ends the
sequence). -/
def stripEscGo : StripMode → List Char → List Char
  | _, [] => []
  | .text, c :: rest =>
      if c = escChar then stripEscGo .esc rest
      else if c.toNat < 32 ∧ c ≠ '\n' then stripEscGo .text rest
      else if c.toNat = 127 then stripEscGo .text rest
      else c :: stripEscGo .text rest
  | .esc, c :: rest =>
      if c = '[' then stripEscGo .csi rest
      else stripEscGo .text rest
  | .csi, c :: rest =>
      if 0x40 ≤ c.toNat ∧ c.toNat ≤ 0x7e then stripEscGo .text rest
      else stripEscGo .csi rest

/-- `strip_ansi_escapes::strip_str`, modelled on the character list. -/
def stripStr (s : String) : String :=
  String.mk (stripEscGo .text s.data)

/-- `line.replace(['\n', '\t'], " ")` as a `String` map. -/
def replaceNlTab (s : String) : String :=
  String.mk (replaceChars s.data)

/-- The worker's sanitization of one received line
(`src/container.rs`, lines 190–191). -/
def sanitize (s : String) : String :=
  stripStr (replaceNlTab s)

/-- A character the sanitizer may keep when the input had its newlines
and tabs replaced: printable, not DEL (hence in particular not ESC, not
a newline and not a tab). -/
def plainChar (c : Char) : Bool :=
  decide (32 ≤ c.toNat) && decide (c.toNat ≠ 127)

/-! ### The bounded history buffer (`src/bul.rs`, `log_keeping` task)

```rust
if queue.len() > queue_capacity {
    queue.pop_front().unwrap();
}
queue.push_back(log.clone());
```

`popFront` models `VecDeque::pop_front`; `aggStep` models one insertion,
with `none` standing for the `unwrap` panicking. -/

/-- `VecDeque::pop_front`: the front element and the rest, if any. -/
def popFront : List α → Option (α × List α)
  | [] => none
  | x :: xs => some (x, xs)

/-- One iteration of the `log_keeping` insertion: evict the front when the
length exceeds the capacity (the `unwrap` panic is `none`), then append. -/
def aggStep (cap : Nat) (q : List α) (x : α) : Option (List α) :=
  if q.length > cap then
    match popFront q with
    | some (_, rest) => some (rest ++ [x])
    | none => none
  else
    some (q ++ [x])

/-- The buffer after the `log_keeping` task has received `logs` in order,
starting from the empty queue. -/
def aggRun (cap : Nat) (logs : List α) : Option (List α) :=
  logs.foldlM (fun q x => aggStep cap q x) []

/-! ### Substring matching and highlighting

`promkit`'s `StyledGraphemes::highlight(query, style)` returns the styled
text when `query` occurs in it as a substring and `None` otherwise; the
style is presentation only, so the model keeps the text unchanged. -/

/-- Does `pat` occur at the head of `l`? -/
def leadsWith : List Char → List Char → Bool
  | _, [] => true
  | [], _ :: _ => false
  | c :: cs, p :: ps => (c = p : Bool) && leadsWith cs ps

/-- Does `pat` occur inside `l` as a contiguous subsequence? -/
def containsSeq : List Char → List Char → Bool
  | [], pat => pat.isEmpty
  | c :: t, pat => leadsWith (c :: t) pat || containsSeq t pat

/-- Substring containment on strings (Rust `str::contains`). -/
def containsSubstr (hay needle : String) : Bool :=
  containsSeq hay.data needle.data

/-- Model of `StyledGraphemes::highlight`: the body when the query occurs
in it, `none` otherwise. -/
def highlight (body query : String) : Option String :=
  if containsSubstr body query then some body else none

/-! ### Source matching (`src/container.rs`)

`ContainerState`, `ContainerStateMatcher` and
`ContainerLogStreamer::get_pod_and_containers` over embedded Kubernetes
values.  A `k8s_openapi` `ContainerState` has three `Option` fields
(`running`, `terminated`, `waiting`); only their presence is inspected,
so they are embedded as `Bool`s.  The compiled `pod_regex` is embedded as
an optional predicate on names (`Regex::is_match`). -/

/-- The CLI container-state filter values (`enum ContainerState`). -/
inductive ContainerState where
  | all
  | running
  | terminated
  | waiting
  deriving DecidableEq, Repr

/-- Presence of the `running` / `terminated` / `waiting` fields of a
`k8s_openapi` container state. -/
structure ContainerStateFields where
  running : Bool
  terminated : Bool
  waiting : Bool
  deriving DecidableEq, Repr

/-- `ContainerStateMatcher` wraps the list of accepted states. -/
structure ContainerStateMatcher where
  states : List ContainerState
  deriving DecidableEq, Repr

/-- `ContainerStateMatcher::matches`: accept unconditionally when `All`
is among the accepted states, otherwise accept when any accepted state's
field is present. -/
def ContainerStateMatcher.matches (m : ContainerStateMatcher)
    (state : ContainerStateFields) : Bool :=
  if m.states.contains ContainerState.all then
    true
  else
    m.states.any (fun accept =>
      match accept with
      | ContainerState.running => state.running
      | ContainerState.terminated => state.terminated
      | ContainerState.waiting => state.waiting
      | _ => false)

/-- One entry of `pod.status.container_statuses`: the container name and
its optional current state. -/
structure ContainerStatus where
  name : String
  state : Option ContainerStateFields
  deriving DecidableEq, Repr

/-- `pod.status`: the optional list of container statuses. -/
structure PodStatus where
  containerStatuses : Option (List ContainerStatus)
  deriving DecidableEq, Repr

/-- An embedded pod: optional metadata name, optional status, and
`pod.spec.map(|spec| spec.containers)` reduced to the container names. -/
structure PodInfo where
  name : Option String
  status : Option PodStatus
  specContainers : Option (List String)

/-- The body of `get_pod_and_containers` for one pod: skip a pod with no
name or whose name fails the regex; otherwise collect the state-matched
entries of `container_statuses` followed by every container declared in
`pod.spec`. -/
def podEntries (podRegex : Option (String → Bool)) (m : ContainerStateMatcher)
    (pod : PodInfo) : List (String × String) :=
  match pod.name with
  | none => []
  | some podName =>
    if (match podRegex with
        | some isMatch => isMatch podName
        | none => true) then
      (match pod.status with
       | none => []
       | some podStatus =>
         match podStatus.containerStatuses with
         | none => []
         | some containerStatuses =>
           (containerStatuses.filter (fun status =>
             (status.state.map (fun state => m.matches state)).getD false)).map
             (fun container => (podName, container.name)))
      ++
      (match pod.specContainers with
       | none => []
       | some containers => containers.map (fun container => (podName, container)))
    else []

/-- `ContainerLogStreamer::get_pod_and_containers` over a listed set of
pods: fold `podEntries` left-to-right into the result vector. -/
def getPodAndContainers (podRegex : Option (String → Bool))
    (m : ContainerStateMatcher) (pods : List PodInfo) : List (String × String) :=
  pods.foldl (fun ret pod => ret ++ podEntries podRegex m pod) []

/-! ### Color assignment (`src/container.rs`, lines 74–87 and 169–174)

The source key is `format!("{} {}", pod, container)`; its
`DefaultHasher` hash indexes the fixed 12-color palette.
`std::collections::hash_map::DefaultHasher::new()` is deterministic
(fixed keys), so the hash is a pure function of the key; the spec notes
the exact algorithm is not a compatibility requirement, so `defaultHash`
models it as a concrete deterministic fold over the key's characters
reduced modulo `2^64` (the `u64` returned by `Hasher::finish`). -/

/-- The twelve palette colors of `ContainerLogStreamer::try_new`. -/
inductive Color where
  | red
  | darkRed
  | green
  | darkGreen
  | yellow
  | darkYellow
  | blue
  | darkBlue
  | magenta
  | darkMagenta
  | cyan
  | darkCyan
  deriving DecidableEq, Repr

/-- The palette, in the order of `try_new`. -/
def colors : List Color :=
  [Color.red, Color.darkRed, Color.green, Color.darkGreen,
   Color.yellow, Color.darkYellow, Color.blue, Color.darkBlue,
   Color.magenta, Color.darkMagenta, Color.cyan, Color.darkCyan]

/-- Model of `DefaultHasher`: a deterministic `u64`-valued hash of the
key (the algorithm itself is irrelevant; determinism is what the code
relies on). -/
def defaultHash (s : String) : Nat :=
  s.data.foldl (fun h c => (h * 31 + c.toNat) % (2 ^ 64)) 5381

/-- `format!("{} {}", pod, container)`. -/
def sourceKey (pod container : String) : String :=
  pod ++ " " ++ container

/-- `colors[hashed as usize % colors.len()]` for a given key. -/
def colorKeyed (key : String) : Color :=
  colors.get ⟨defaultHash key % colors.length, Nat.mod_lt _ (by decide)⟩

/-- The color chosen for a (pod, container) source. -/
def colorOf (pod container : String) : Color :=
  colorKeyed (sourceKey pod container)

/-! ### Worker spawning (`launch_log_streams`, lines 143–210)

The loop walks the matched pairs in order; before each pair it reads
`canceled.is_cancelled()` and breaks when set; it then opens the log
stream (`.await?` — a failure aborts the whole launch) and spawns one
worker for the pair.  `cancel i` is the flag value observed at the
`i`-th check, `openOk i` whether the `i`-th `log_stream` call succeeds;
the result is the list of pairs a worker was spawned for (`none` when a
stream failed to open). -/

def spawnLoop (cancel : Nat → Bool) (openOk : Nat → Bool) :
    List (String × String) → Nat → Option (List (String × String))
  | [], _ => some []
  | p :: rest, i =>
    if cancel i then some []
    else if openOk i then
      (spawnLoop cancel openOk rest (i + 1)).map (fun l => p :: l)
    else none

/-- `launch_log_streams`: match the sources, then spawn one worker per
matched pair until cancellation is observed. -/
def launchLogStreams (podRegex : Option (String → Bool))
    (m : ContainerStateMatcher) (pods : List PodInfo)
    (cancel : Nat → Bool) (openOk : Nat → Bool) :
    Option (List (String × String)) :=
  spawnLoop cancel openOk (getPodAndContainers podRegex m pods) 0

/-! ### The worker poll loop (`launch_log_streams`, lines 176–209)

```rust
while !canceled.is_cancelled() {
    let ret = timeout(log_retrieval_timeout, pod_log_stream.next()).await;
    if ret.is_err() { continue; }
    match ret? {
        Some(Ok(line)) => { ...sanitize, send...? }
        _ => break,
    }
}
Ok(())
```

The environment is embedded as schedules: `cancel t` is the flag value
at the `t`-th loop-top check, `polls` the successive outcomes of the
performed poll attempts, `sendOk n` whether the `n`-th channel send
succeeds.  The run returns the emitted (sanitized) lines, how the loop
ended, and how many poll attempts were performed. -/

/-- Outcome of one `timeout(_, pod_log_stream.next())` poll. -/
inductive PollOutcome where
  | timeout
  | line (s : String)
  | streamEnd
  | readErr
  deriving DecidableEq, Repr

/-- How the worker loop ended: loop condition observed the cancellation,
stream end or read error hit the `break` (the worker returns `Ok(())`),
a channel send returned an error (the worker returns `Err`), or the
supplied outcome schedule ran out with the loop still live. -/
inductive WorkerExit where
  | cancelled
  | streamDone
  | sendFailed
  | pending
  deriving DecidableEq, Repr

/-- Result of a worker run. -/
structure WorkerResult where
  emitted : List String
  exit : WorkerExit
  polls : Nat
  deriving DecidableEq, Repr

/-- The worker loop: check `cancel t` at the loop top; poll; on a
timeout re-enter the loop (the next thing that happens is the next
cancellation check), on a line sanitize it and send it (a failed send is
the `?` on `send`), on stream end (`None`) or a read error (`Some(Err)`)
break out and return `Ok(())`.  `t` counts loop iterations, `n` counts
sends. -/
def workerRun (cancel : Nat → Bool) (sendOk : Nat → Bool) :
    List PollOutcome → Nat → Nat → WorkerResult
  | [], t, _ =>
    if cancel t then ⟨[], WorkerExit.cancelled, 0⟩
    else ⟨[], WorkerExit.pending, 0⟩
  | o :: rest, t, n =>
    if cancel t then ⟨[], WorkerExit.cancelled, 0⟩
    else
      match o with
      | PollOutcome.timeout =>
        let r := workerRun cancel sendOk rest (t + 1) n
        ⟨r.emitted, r.exit, r.polls + 1⟩
      | PollOutcome.line s =>
        if sendOk n then
          let r := workerRun cancel sendOk rest (t + 1) (n + 1)
          ⟨sanitize s :: r.emitted, r.exit, r.polls + 1⟩
        else ⟨[], WorkerExit.sendFailed, 1⟩
      | PollOutcome.streamEnd => ⟨[], WorkerExit.streamDone, 1⟩
      | PollOutcome.readErr => ⟨[], WorkerExit.streamDone, 1⟩

/-! ### The live render step and loop (`src/bul.rs`, lines 92–148)

Each iteration receives a record, inserts it into the buffer
(`aggStep`), then reads the live query: an empty query renders the raw
record, a non-empty query renders only when `highlight` finds it in the
body.  `queries i` is the query text read at iteration `i`. -/

/-- What iteration `i` draws for `log`: the merged `meta ++ " " ++ body`
line when the query is empty or occurs in the body, nothing otherwise. -/
def renderLive (query : String) (log : ContainerLog) : Option String :=
  if query = "" then some (log.meta ++ " " ++ log.body)
  else (highlight log.body query).map (fun body => log.meta ++ " " ++ body)

/-- The `log_keeping` loop over the records received from the channel:
thread the buffer through `aggStep` and accumulate the rendered lines;
`none` is the unreachable `unwrap` panic of the eviction branch. -/
def liveRun (cap : Nat) (queries : Nat → String) :
    List ContainerLog → Nat → List ContainerLog → List String →
    Option (List ContainerLog × List String)
  | [], _, queue, rendered => some (queue, rendered)
  | log :: rest, i, queue, rendered =>
    match aggStep cap queue log with
    | none => none
    | some queue' =>
      match renderLive (queries i) log with
      | some line => liveRun cap queries rest (i + 1) queue' (rendered ++ [line])
      | none => liveRun cap queries rest (i + 1) queue' rendered

/-! ### The search-mode filter (`src/dig.rs`, `Digger::evaluate`)

On a query change the visible list is recomputed from the frozen
`log_queue` snapshot: `filter_map` keeps exactly the records whose body
highlights (an ordered parallel iterator; `collect` preserves the
original order). -/

/-- `Digger::evaluate`'s recomputation: keep the records whose body
contains the query, with the body highlighted. -/
def digEvaluate (logQueue : List ContainerLog) (query : String) :
    List ContainerLog :=
  logQueue.filterMap (fun log =>
    (highlight log.body query).map (fun body => { meta := log.meta, body := body }))

/-! ### Concrete scenario data and small helpers used by the theorems -/

/-- A poll outcome the worker survives: a timeout or a received line
(stream end and read errors hit the `break`). -/
def benignOutcome (o : PollOutcome) : Bool :=
  match o with
  | PollOutcome.timeout => true
  | PollOutcome.line _ => true
  | _ => false

/-- The sanitized lines a worker emits for a list of poll outcomes. -/
def emittedOf (polls : List PollOutcome) : List String :=
  polls.filterMap (fun o =>
    match o with
    | PollOutcome.line s => some (sanitize s)
    | _ => none)

/-- The name filter of end-to-end scenario 1: the compiled regex
`"web-.*"`, whose unanchored `is_match` holds exactly when the name
contains `"web-"`. -/
def scenarioNameFilter : Option (String → Bool) :=
  some (fun n => containsSubstr n "web-")

/-- The pods of end-to-end scenario 1: `web-1` (container `app`,
running), `web-2` (container `app`, waiting), `db-1` (container `app`,
running); each pod's spec declares its container `app`. -/
def scenarioPods : List PodInfo :=
  [ ⟨some "web-1", some ⟨some [⟨"app", some ⟨true, false, false⟩⟩]⟩, some ["app"]⟩,
    ⟨some "web-2", some ⟨some [⟨"app", some ⟨false, false, true⟩⟩]⟩, some ["app"]⟩,
    ⟨some "db-1", some ⟨some [⟨"app", some ⟨true, false, false⟩⟩]⟩, some ["app"]⟩ ]

/-! ## Theorems -/

/-- The eviction branch never panics: `aggStep` always succeeds, evicting
the front exactly when the length exceeds the capacity. -/
theorem aggStep_eq (cap : Nat) (q : List α) (x : α) :
    aggStep cap q x = some ((if q.length > cap then q.tail else q) ++ [x]) := by
  cases q with
  | nil => simp [aggStep]
  | cons a t =>
    by_cases h : cap < t.length + 1
    · simp [aggStep, popFront, h]
    · simp [aggStep, popFront, h]

/-- C10: in the Live Aggregator's insertion step, whenever the buffer
length exceeds the capacity the buffer is non-empty, so `pop_front`
yields a record and the `unwrap` on it cannot panic; the step produces
the buffer with its front evicted and the new record appended. -/
theorem eviction_unwrap_unreachable (cap : Nat) (q : List ContainerLog)
    (x : ContainerLog) (h : q.length > cap) :
    (popFront q).isSome = true ∧ aggStep cap q x = some (q.tail ++ [x]) := by
  constructor
  · cases q with
    | nil => simp at h
    | cons a t => rfl
  · rw [aggStep_eq, if_pos h]

/-- Witness for C10 at capacity 1 and a two-record buffer. -/
theorem eviction_unwrap_unreachable_witness :
    (popFront [ContainerLog.mk "k" "a", ContainerLog.mk "k" "b"]).isSome = true ∧
    aggStep 1 [ContainerLog.mk "k" "a", ContainerLog.mk "k" "b"] (ContainerLog.mk "k" "c") =
      some ([ContainerLog.mk "k" "a", ContainerLog.mk "k" "b"].tail ++ [ContainerLog.mk "k" "c"]) :=
  eviction_unwrap_unreachable 1 _ _ (by decide)

/-- C1: the claimed FIFO law fails on the code.  The `log_keeping` task
evicts only when `queue.len() > queue_capacity` (not `>=`), so at
capacity 3 the records A,B,C,D,E leave a buffer of four records
[B,C,D,E] — not the claimed three-record [C,D,E]. -/
theorem history_buffer_exceeds_capacity :
    aggRun 3 ["A", "B", "C", "D", "E"] = some ["B", "C", "D", "E"] ∧
    (["B", "C", "D", "E"] : List String).length = 4 ∧
    aggRun 3 ["A", "B", "C", "D", "E"] ≠ some ["C", "D", "E"] := by
  decide

/-- C2: the Source Matcher's output is not limited to state-accepted
containers.  On scenario 1 (name filter `web-.*`, state filter
`running`), `get_pod_and_containers` also pushes every container
declared in `pod.spec`, so `web-1/app` is emitted twice and the waiting
`web-2/app` is emitted as well — not only `web-1/app`. -/
theorem source_matcher_admits_unfiltered_containers :
    getPodAndContainers scenarioNameFilter ⟨[ContainerState.running]⟩ scenarioPods
      = [("web-1", "app"), ("web-1", "app"), ("web-2", "app")] ∧
    getPodAndContainers scenarioNameFilter ⟨[ContainerState.running]⟩ scenarioPods
      ≠ [("web-1", "app")] := by
  constructor
  · rfl
  · decide

/-- The search-mode recomputation is exactly a filter by substring
containment of the query in the body. -/
theorem digEvaluate_eq_filter (logQueue : List ContainerLog) (query : String) :
    digEvaluate logQueue query
      = logQueue.filter (fun log => containsSubstr log.body query) := by
  induction logQueue with
  | nil => rfl
  | cons log rest ih =>
    by_cases h : containsSubstr log.body query
    · simp [digEvaluate, List.filterMap_cons, highlight, h, List.filter_cons] at ih ⊢
      exact ih
    · simp [digEvaluate, List.filterMap_cons, highlight, h, List.filter_cons] at ih ⊢
      exact ih

/-- C3: the Search Engine's filtering is a pure function of the
(snapshot, query) pair — it is modelled as one, so two runs on the same
inputs are literally the same list — and its result is an
order-preserving subsequence of the snapshot containing exactly the
records whose body contains the query as a substring. -/
theorem dig_filter_pure_subsequence (logQueue : List ContainerLog) (query : String) :
    List.Sublist (digEvaluate logQueue query) logQueue ∧
    digEvaluate logQueue query
      = logQueue.filter (fun log => containsSubstr log.body query) := by
  refine ⟨?_, digEvaluate_eq_filter _ _⟩
  rw [digEvaluate_eq_filter]
  exact List.filter_sublist _

/-- C7: color assignment factors through the source key — the color of a
(pod, container) source is a function of `sourceKey` alone — and that
function indexes the fixed 12-color palette at the stable hash of the
key modulo the palette size. -/
theorem color_assignment_deterministic :
    colors.length = 12 ∧
    (∀ pod container, colorOf pod container = colorKeyed (sourceKey pod container)) ∧
    (∀ key, colorKeyed key = colors.getD (defaultHash key % colors.length) Color.red) := by
  refine ⟨rfl, fun _ _ => rfl, fun key => ?_⟩
  have h : defaultHash key % colors.length < colors.length :=
    Nat.mod_lt _ (by decide)
  rw [colorKeyed, List.getD_eq_getElem?_getD, List.getElem?_eq_getElem h]
  rfl

/-- `plainChar` unpacked. -/
theorem plainChar_spec {c : Char} (h : plainChar c = true) :
    32 ≤ c.toNat ∧ c.toNat ≠ 127 := by
  simpa [plainChar, Bool.and_eq_true, decide_eq_true_eq] using h

/-- Whatever the parser state, every character the escape stripper keeps
from an input without line feeds is plain (printable, not DEL). -/
theorem stripEscGo_all_plain :
    ∀ l : List Char, (∀ c ∈ l, c ≠ '\n') →
      ∀ m, ((stripEscGo m l).all plainChar) = true := by
  intro l
  induction l with
  | nil => intro _ m; cases m <;> rfl
  | cons c rest ih =>
    intro hnl m
    have hc : c ≠ '\n' := hnl c (by simp)
    have hrest : ∀ x ∈ rest, x ≠ '\n' := fun x hx => hnl x (by simp [hx])
    cases m with
    | text =>
      by_cases h1 : c = escChar
      · simpa [stripEscGo, h1] using ih hrest StripMode.esc
      · by_cases h2 : c.toNat < 32 ∧ c ≠ '\n'
        · simpa [stripEscGo, h1, h2] using ih hrest StripMode.text
        · by_cases h3 : c.toNat = 127
          · simpa [stripEscGo, h1, h2, h3] using ih hrest StripMode.text
          · have hge : 32 ≤ c.toNat :=
              Nat.le_of_not_lt (fun hlt => h2 ⟨hlt, hc⟩)
            have hplain : plainChar c = true := by
              simp only [plainChar, Bool.and_eq_true, decide_eq_true_eq]
              exact ⟨hge, h3⟩
            simpa [stripEscGo, h1, h2, h3, List.all_cons, hplain] using
              ih hrest StripMode.text
    | esc =>
      by_cases h1 : c = '['
      · simpa [stripEscGo, h1] using ih hrest StripMode.csi
      · simpa [stripEscGo, h1] using ih hrest StripMode.text
    | csi =>
      by_cases h1 : 0x40 ≤ c.toNat ∧ c.toNat ≤ 0x7e
      · simpa [stripEscGo, h1] using ih hrest StripMode.text
      · simpa [stripEscGo, h1] using ih hrest StripMode.csi

/-- The escape stripper leaves an all-plain input unchanged. -/
theorem stripEscGo_text_id :
    ∀ l : List Char, l.all plainChar = true → stripEscGo StripMode.text l = l := by
  intro l
  induction l with
  | nil => intro _; rfl
  | cons c rest ih =>
    intro h
    rw [List.all_cons, Bool.and_eq_true] at h
    obtain ⟨hc, hrest⟩ := h
    obtain ⟨hge, h127⟩ := plainChar_spec hc
    have h1 : c ≠ escChar := by
      intro e
      rw [e] at hge
      exact absurd hge (by decide)
    have h2 : ¬(c.toNat < 32 ∧ c ≠ '\n') :=
      fun h' => absurd h'.1 (Nat.not_lt.mpr hge)
    simp [stripEscGo, h1, h2, h127, ih hrest]

/-- The newline/tab replacement leaves an all-plain input unchanged. -/
theorem replaceChars_plain_id :
    ∀ l : List Char, l.all plainChar = true → replaceChars l = l := by
  intro l
  induction l with
  | nil => intro _; rfl
  | cons c rest ih =>
    intro h
    rw [List.all_cons, Bool.and_eq_true] at h
    obtain ⟨hc, hrest⟩ := h
    obtain ⟨hge, _⟩ := plainChar_spec hc
    have hne : ¬(c = '\n' ∨ c = '\t') := by
      rintro (e | e) <;> (rw [e] at hge; exact absurd hge (by decide))
    simp only [replaceChars, List.map_cons]
    rw [if_neg hne]
    have htail := ih hrest
    simp only [replaceChars] at htail
    rw [htail]

/-- After the replacement, no newline or tab remains. -/
theorem mem_replaceChars (l : List Char) :
    ∀ c ∈ replaceChars l, c ≠ '\n' ∧ c ≠ '\t' := by
  intro c hc
  rw [replaceChars, List.mem_map] at hc
  obtain ⟨a, -, rfl⟩ := hc
  by_cases h : a = '\n' ∨ a = '\t'
  · rw [if_pos h]
    exact ⟨by decide, by decide⟩
  · rw [if_neg h]
    push_neg at h
    exact h

/-- The characters of a sanitized line. -/
theorem sanitize_data (s : String) :
    (sanitize s).data = stripEscGo StripMode.text (replaceChars s.data) := rfl

/-- C4: the worker's sanitization is idempotent, and its output contains
no newline, no tab and no ESC character (hence no terminal escape
sequence, which ESC would have to introduce). -/
theorem sanitize_idempotent_and_clean (s : String) :
    sanitize (sanitize s) = sanitize s ∧
    ((sanitize s).data.all plainChar) = true ∧
    ((sanitize s).data.all
      (fun c => decide (c ≠ '\n') && decide (c ≠ '\t') && decide (c ≠ escChar))) = true := by
  have hplain : ((sanitize s).data.all plainChar) = true := by
    rw [sanitize_data]
    exact stripEscGo_all_plain _ (fun c hc => (mem_replaceChars _ c hc).1) _
  refine ⟨?_, hplain, ?_⟩
  · have h1 : replaceChars (sanitize s).data = (sanitize s).data :=
      replaceChars_plain_id _ hplain
    have h2 : stripEscGo StripMode.text (sanitize s).data = (sanitize s).data :=
      stripEscGo_text_id _ hplain
    show String.mk (stripEscGo StripMode.text (replaceChars (sanitize s).data)) = sanitize s
    rw [h1, h2]
  · refine List.all_eq_true.mpr (fun c hc => ?_)
    have hpc : plainChar c = true := List.all_eq_true.mp hplain c hc
    obtain ⟨hge, _⟩ := plainChar_spec hpc
    simp only [Bool.and_eq_true, decide_eq_true_eq]
    refine ⟨⟨?_, ?_⟩, ?_⟩ <;> (intro e; rw [e] at hge; exact absurd hge (by decide))

/-- Every performed poll attempt of the worker loop was immediately
preceded by a cancellation check that read `false`: the `i`-th poll
(0-based, counting from the loop entry at iteration `t`) happens only
when `cancel (t + i) = false`. -/
theorem workerRun_checks (cancel sendOk : Nat → Bool) :
    ∀ (polls : List PollOutcome) (t n i : Nat),
      i < (workerRun cancel sendOk polls t n).polls → cancel (t + i) = false := by
  intro polls
  induction polls with
  | nil =>
    intro t n i hi
    cases hct : cancel t <;> simp [workerRun, hct] at hi
  | cons o rest ih =>
    intro t n i hi
    cases hct : cancel t with
    | true => simp [workerRun, hct] at hi
    | false =>
      cases o with
      | timeout =>
        simp only [workerRun, hct, Bool.false_eq_true, if_false] at hi
        cases i with
        | zero => simpa using hct
        | succ j =>
          have hj : j < (workerRun cancel sendOk rest (t + 1) n).polls :=
            Nat.lt_of_succ_lt_succ hi
          have heq : t + (j + 1) = (t + 1) + j := by omega
          rw [heq]
          exact ih (t + 1) n j hj
      | line s =>
        simp only [workerRun, hct, Bool.false_eq_true, if_false] at hi
        cases hsn : sendOk n with
        | true =>
          simp only [hsn, if_true] at hi
          cases i with
          | zero => simpa using hct
          | succ j =>
            have hj : j < (workerRun cancel sendOk rest (t + 1) (n + 1)).polls :=
              Nat.lt_of_succ_lt_succ hi
            have heq : t + (j + 1) = (t + 1) + j := by omega
            rw [heq]
            exact ih (t + 1) (n + 1) j hj
        | false =>
          simp only [hsn, Bool.false_eq_true, if_false] at hi
          have : i = 0 := by omega
          subst this
          simpa using hct
      | streamEnd =>
        simp only [workerRun, hct, Bool.false_eq_true, if_false] at hi
        have : i = 0 := by omega
        subst this
        simpa using hct
      | readErr =>
        simp only [workerRun, hct, Bool.false_eq_true, if_false] at hi
        have : i = 0 := by omega
        subst this
        simpa using hct

/-- C5: the worker checks the cancellation signal before every poll
attempt (every performed poll saw a `false` check), and once the signal
reads `true` at check `T` the loop performs at most the `T` polls that
preceded it — a poll already in flight finishes, none starts after the
observation.  A timeout re-enters the loop, so the next event after a
timeout is again the check. -/
theorem worker_cancellation_bound (cancel sendOk : Nat → Bool)
    (polls : List PollOutcome) :
    (∀ i, i < (workerRun cancel sendOk polls 0 0).polls → cancel i = false) ∧
    (∀ T, cancel T = true → (workerRun cancel sendOk polls 0 0).polls ≤ T) := by
  constructor
  · intro i hi
    simpa using workerRun_checks cancel sendOk polls 0 0 i hi
  · intro T hT
    by_contra hgt
    push_neg at hgt
    have hfalse := workerRun_checks cancel sendOk polls 0 0 T hgt
    simp at hfalse
    rw [hfalse] at hT
    exact Bool.false_ne_true hT

/-- Witness for C5: the signal is set from iteration 2 on; the worker
performs at most two polls of the four available outcomes. -/
theorem worker_cancellation_bound_witness :
    (workerRun (fun i => decide (2 ≤ i)) (fun _ => true)
      [PollOutcome.timeout, PollOutcome.line "x", PollOutcome.line "y",
       PollOutcome.timeout] 0 0).polls ≤ 2 :=
  (worker_cancellation_bound (fun i => decide (2 ≤ i)) (fun _ => true)
    [PollOutcome.timeout, PollOutcome.line "x", PollOutcome.line "y",
     PollOutcome.timeout]).2 2 (by decide)

/-- The spawn loop spawns a prefix of the matched pairs: each spawned
index saw a `false` cancellation check, and the loop stops only at the
end of the list or at a `true` check. -/
theorem spawnLoop_spec (cancel openOk : Nat → Bool) (hopen : ∀ i, openOk i = true) :
    ∀ (pairs : List (String × String)) (i0 : Nat),
      ∃ l, spawnLoop cancel openOk pairs i0 = some l ∧
        l = pairs.take l.length ∧
        (∀ j, j < l.length → cancel (i0 + j) = false) ∧
        (l.length = pairs.length ∨ cancel (i0 + l.length) = true) := by
  intro pairs
  induction pairs with
  | nil =>
    intro i0
    refine ⟨[], rfl, rfl, ?_, Or.inl rfl⟩
    intro j hj
    simp at hj
  | cons p rest ih =>
    intro i0
    cases hc : cancel i0 with
    | true =>
      refine ⟨[], ?_, rfl, ?_, Or.inr ?_⟩
      · simp [spawnLoop, hc]
      · intro j hj; simp at hj
      · simpa using hc
    | false =>
      obtain ⟨l, hl, htake, hchecks, hend⟩ := ih (i0 + 1)
      refine ⟨p :: l, ?_, ?_, ?_, ?_⟩
      · simp [spawnLoop, hc, hopen i0, hl]
      · simp only [List.length_cons, List.take_succ_cons]
        rw [← htake]
      · intro j hj
        cases j with
        | zero => simpa using hc
        | succ j' =>
          have hj' : j' < l.length := by
            simpa [List.length_cons, Nat.succ_lt_succ_iff] using hj
          have heq : i0 + (j' + 1) = (i0 + 1) + j' := by omega
          rw [heq]
          exact hchecks j' hj'
      · cases hend with
        | inl h => exact Or.inl (by simp [List.length_cons, h])
        | inr h =>
          refine Or.inr ?_
          have heq : i0 + (p :: l).length = (i0 + 1) + l.length := by
            simp [List.length_cons]
            omega
          rw [heq]
          exact h

/-- C6: when every log stream opens, the supervisor spawns exactly one
worker per matched (pod, container) pair — with no cancellation the
spawned list is the whole matched list — and the spawned list is always
an initial segment of the matched list whose length never reaches an
index at which the signal read `true`: once cancellation is observed, no
further worker is created. -/
theorem supervisor_spawn_counts (podRegex : Option (String → Bool))
    (m : ContainerStateMatcher) (pods : List PodInfo)
    (cancel openOk : Nat → Bool) (hopen : ∀ i, openOk i = true) :
    ((∀ i, cancel i = false) →
      launchLogStreams podRegex m pods cancel openOk
        = some (getPodAndContainers podRegex m pods)) ∧
    (∃ l, launchLogStreams podRegex m pods cancel openOk = some l ∧
      l = (getPodAndContainers podRegex m pods).take l.length ∧
      (∀ k, cancel k = true → l.length ≤ k)) := by
  obtain ⟨l, hl, htake, hchecks, hend⟩ :=
    spawnLoop_spec cancel openOk hopen (getPodAndContainers podRegex m pods) 0
  constructor
  · intro hc
    rw [launchLogStreams, hl]
    cases hend with
    | inl hlen =>
      rw [htake, hlen, List.take_length]
    | inr hcc =>
      rw [hc (0 + l.length)] at hcc
      exact absurd hcc Bool.false_ne_true
  · refine ⟨l, by rw [launchLogStreams, hl], htake, ?_⟩
    intro k hk
    by_contra hgt
    push_neg at hgt
    have hfalse := hchecks k hgt
    simp at hfalse
    rw [hfalse] at hk
    exact Bool.false_ne_true hk

/-- Witness for C6: one pod with one running container, no cancellation:
exactly one worker is spawned. -/
theorem supervisor_spawn_counts_witness :
    launchLogStreams (some (fun n => containsSubstr n "w"))
      ⟨[ContainerState.all]⟩
      [⟨some "w1", some ⟨some [⟨"c1", some ⟨true, false, false⟩⟩]⟩, none⟩]
      (fun _ => false) (fun _ => true)
      = some (getPodAndContainers (some (fun n => containsSubstr n "w"))
          ⟨[ContainerState.all]⟩
          [⟨some "w1", some ⟨some [⟨"c1", some ⟨true, false, false⟩⟩]⟩, none⟩]) :=
  (supervisor_spawn_counts (some (fun n => containsSubstr n "w"))
    ⟨[ContainerState.all]⟩
    [⟨some "w1", some ⟨some [⟨"c1", some ⟨true, false, false⟩⟩]⟩, none⟩]
    (fun _ => false) (fun _ => true) (fun _ => rfl)).1 (fun _ => rfl)

/-- A worker that never observes cancellation and whose sends all
succeed runs through its benign outcomes and ends at the terminal one
with the `break`: it returns normally with exactly the sanitized lines
emitted. -/
theorem workerRun_stream_done (cancel sendOk : Nat → Bool)
    (hc : ∀ i, cancel i = false) (hs : ∀ n, sendOk n = true) :
    ∀ (pre : List PollOutcome), pre.all benignOutcome = true →
      ∀ (term : PollOutcome),
        (term = PollOutcome.streamEnd ∨ term = PollOutcome.readErr) →
      ∀ t n, workerRun cancel sendOk (pre ++ [term]) t n
        = ⟨emittedOf pre, WorkerExit.streamDone, pre.length + 1⟩ := by
  intro pre
  induction pre with
  | nil =>
    intro _ term hterm t n
    cases hterm with
    | inl h => subst h; simp [workerRun, hc t, emittedOf]
    | inr h => subst h; simp [workerRun, hc t, emittedOf]
  | cons o rest ih =>
    intro hbenign term hterm t n
    rw [List.all_cons, Bool.and_eq_true] at hbenign
    obtain ⟨ho, hrest⟩ := hbenign
    cases o with
    | timeout =>
      simp [workerRun, hc t, ih hrest term hterm (t + 1) n, emittedOf,
        List.filterMap_cons]
    | line s =>
      simp [workerRun, hc t, hs n, ih hrest term hterm (t + 1) (n + 1), emittedOf,
        List.filterMap_cons]
    | streamEnd => simp [benignOutcome] at ho
    | readErr => simp [benignOutcome] at ho

/-- C8: an end-of-stream (`None`) or a read error (`Some(Err)`) makes the
worker break out of its loop and return `Ok(())`: the exit is the normal
`streamDone`, not a failure, and only the lines read before the terminal
event were emitted.  The model gives the worker read-only access to the
cancellation schedule, so it cannot set the signal, and no other
worker's run appears in its result. -/
theorem worker_failure_isolation (cancel sendOk : Nat → Bool)
    (hc : ∀ i, cancel i = false) (hs : ∀ n, sendOk n = true)
    (pre : List PollOutcome) (hbenign : pre.all benignOutcome = true)
    (term : PollOutcome)
    (hterm : term = PollOutcome.streamEnd ∨ term = PollOutcome.readErr) :
    (workerRun cancel sendOk (pre ++ [term]) 0 0).exit = WorkerExit.streamDone ∧
    workerRun cancel sendOk (pre ++ [term]) 0 0
      = ⟨emittedOf pre, WorkerExit.streamDone, pre.length + 1⟩ := by
  have h := workerRun_stream_done cancel sendOk hc hs pre hbenign term hterm 0 0
  exact ⟨by rw [h], h⟩

/-- Witness for C8: a timeout and one line, then a read error — the
worker exits normally having emitted the one sanitized line. -/
theorem worker_failure_isolation_witness :
    (workerRun (fun _ => false) (fun _ => true)
      ([PollOutcome.timeout, PollOutcome.line "a"] ++ [PollOutcome.readErr]) 0 0).exit
      = WorkerExit.streamDone ∧
    workerRun (fun _ => false) (fun _ => true)
      ([PollOutcome.timeout, PollOutcome.line "a"] ++ [PollOutcome.readErr]) 0 0
      = ⟨emittedOf [PollOutcome.timeout, PollOutcome.line "a"],
          WorkerExit.streamDone,
          [PollOutcome.timeout, PollOutcome.line "a"].length + 1⟩ :=
  worker_failure_isolation (fun _ => false) (fun _ => true)
    (fun _ => rfl) (fun _ => rfl)
    [PollOutcome.timeout, PollOutcome.line "a"] (by decide)
    PollOutcome.readErr (Or.inr rfl)

/-- The final buffer of the live loop does not depend on the query
schedule (nor on the iteration counter or previously rendered lines):
the insertion happens before, and independently of, the render check. -/
theorem liveRun_fst_ignores_queries (cap : Nat) :
    ∀ (logs : List ContainerLog) (qs qs' : Nat → String) (i i' : Nat)
      (queue : List ContainerLog) (r r' : List String),
      (liveRun cap qs logs i queue r).map Prod.fst
        = (liveRun cap qs' logs i' queue r').map Prod.fst := by
  intro logs
  induction logs with
  | nil =>
    intro qs qs' i i' queue r r'
    rfl
  | cons log rest ih =>
    intro qs qs' i i' queue r r'
    simp only [liveRun, aggStep_eq]
    cases renderLive (qs i) log <;> cases renderLive (qs' i') log <;>
      simp only [] <;> exact ih qs qs' (i + 1) (i' + 1) _ _ _

/-- C9: every received record is appended to the buffer regardless of
the live query — the final buffer is independent of the query schedule —
and a record whose body does not contain the non-empty query is not
rendered even though the insertion retains it as the buffer's newest
record. -/
theorem live_buffer_query_independent (cap : Nat) (logs : List ContainerLog)
    (qs qs' : Nat → String) :
    (liveRun cap qs logs 0 [] []).map Prod.fst
      = (liveRun cap qs' logs 0 [] []).map Prod.fst ∧
    (∀ q log, q ≠ "" → containsSubstr log.body q = false →
      renderLive q log = none) ∧
    (∀ (queue : List ContainerLog) (log : ContainerLog),
      ∃ queue', aggStep cap queue log = some queue'
        ∧ queue'.getLast? = some log) := by
  refine ⟨liveRun_fst_ignores_queries cap logs qs qs' 0 0 [] [] [], ?_, ?_⟩
  · intro q log hq hcontains
    simp only [renderLive, if_neg hq]
    simp [highlight, hcontains]
  · intro queue log
    refine ⟨_, aggStep_eq cap queue log, ?_⟩
    exact List.getLast?_concat _

/-- Witness for C9: with query `"error"`, a record with body
`"no problems here"` is buffered (the buffer equals the one of the
empty-query run) but not rendered. -/
theorem live_buffer_query_independent_witness :
    (liveRun 1 (fun _ => "error") [ContainerLog.mk "k" "no problems here"]
        0 [] []).map Prod.fst
      = (liveRun 1 (fun _ => "") [ContainerLog.mk "k" "no problems here"]
        0 [] []).map Prod.fst ∧
    renderLive "error" (ContainerLog.mk "k" "no problems here") = none := by
  have h := live_buffer_query_independent 1
    [ContainerLog.mk "k" "no problems here"] (fun _ => "error") (fun _ => "")
  exact ⟨h.1, h.2.1 "error" (ContainerLog.mk "k" "no problems here")
    (by decide) (by decide)⟩

end Bul
